import Mathlib

/-!
Verification of the phrase synchronization and storage subsystem of the
viet-phrases application: the server endpoints in
`src/app/api/phrases/route.ts` (sync-key variant) and the client sync
coordinator in `src/app/page.tsx`.

The first part models JSON values together with an executable serializer
(`renderString`, standing for the `JSON.stringify` output the server writes
to the Remote Store) and an executable recursive-descent reader
(`jsonParse`, standing for `JSON.parse` as applied by the server when it
loads stored data).  The round-trip theorem `jsonParse_renderString`
establishes that re-parsing a serialized collection is the identity, which
the POST/GET round-trip law relies on.
-/

/-- JSON values.  Numbers are modelled as integers: every numeric field of a
phrase (`createdAt`, `reviewCount`, `lastReviewed`) is an integer. -/
inductive Json where
  | null : Json
  | bool : Bool → Json
  | num : Int → Json
  | str : String → Json
  | arr : List Json → Json
  | obj : List (String × Json) → Json

/-- Field access `body.k` on a parsed JSON body: a lookup when the body is an
object, `undefined` (here `none`) otherwise. -/
def Json.getField : Json → String → Option Json
  | .obj m, k => go m k
  | _, _ => none
where go : List (String × Json) → String → Option Json
  | [], _ => none
  | (k0, v) :: rest, k => if k0 = k then some v else go rest k

/-- Decimal digit to character. -/
def digitChar (d : Nat) : Char := Char.ofNat (48 + d)

/-- Decimal rendering of a natural number (most significant digit first). -/
def renderNat (n : Nat) : List Char :=
  if n = 0 then ['0'] else (Nat.digits 10 n).reverse.map digitChar

/-- Decimal rendering of an integer. -/
def renderInt (i : Int) : List Char :=
  if i < 0 then '-' :: renderNat i.natAbs else renderNat i.natAbs

/-- Escaping of a single character inside a JSON string literal. -/
def escChar (c : Char) : List Char :=
  if c = '"' then ['\\', '"']
  else if c = '\\' then ['\\', '\\']
  else if c = '\n' then ['\\', 'n']
  else if c = '\r' then ['\\', 'r']
  else if c = '\t' then ['\\', 't']
  else [c]

/-- Escaping of the characters of a JSON string literal body. -/
def escChars : List Char → List Char
  | [] => []
  | c :: t => escChar c ++ escChars t

mutual

/-- Serialization of a JSON value to characters, following the compact
(no-whitespace) output of `JSON.stringify`. -/
def renderChars : Json → List Char
  | .null => "null".data
  | .bool b => if b then "true".data else "false".data
  | .num i => renderInt i
  | .str s => '"' :: (escChars s.data ++ ['"'])
  | .arr l => '[' :: (renderElems l ++ [']'])
  | .obj m => '\x7b' :: (renderMembers m ++ ['\x7d'])

/-- Serialization of the comma-separated elements of a JSON array. -/
def renderElems : List Json → List Char
  | [] => []
  | [v] => renderChars v
  | v :: l => renderChars v ++ ',' :: renderElems l

/-- Serialization of the comma-separated members of a JSON object. -/
def renderMembers : List (String × Json) → List Char
  | [] => []
  | [(k, v)] => '"' :: (escChars k.data ++ '"' :: ':' :: renderChars v)
  | (k, v) :: m => '"' :: (escChars k.data ++ '"' :: ':' :: renderChars v) ++ ',' :: renderMembers m

end

/-- Serialization of a JSON value to a string (`JSON.stringify`). -/
def renderString (j : Json) : String := ⟨renderChars j⟩

/-- Reading a maximal run of decimal digits, with an accumulator. -/
def parseNatAux : List Char → Nat → Nat × List Char
  | [], acc => (acc, [])
  | c :: cs, acc =>
    if c.isDigit then parseNatAux cs (acc * 10 + (c.toNat - 48)) else (acc, c :: cs)

/-- Inverse of `escChar` on the character following a backslash. -/
def unescChar (c : Char) : Option Char :=
  if c = '"' then some '"'
  else if c = '\\' then some '\\'
  else if c = 'n' then some '\n'
  else if c = 'r' then some '\r'
  else if c = 't' then some '\t'
  else none

/-- Reading the body of a JSON string literal up to its closing quote. -/
def parseStrAux : List Char → Option (List Char × List Char)
  | [] => none
  | c :: cs =>
    if c = '"' then some ([], cs)
    else if c = '\\' then
      match cs with
      | [] => none
      | e :: cs2 =>
        match unescChar e with
        | some u => (parseStrAux cs2).map (fun p => (u :: p.1, p.2))
        | none => none
    else (parseStrAux cs).map (fun p => (c :: p.1, p.2))

mutual

/-- Fuelled recursive-descent reading of one JSON value, returning the value
and the unconsumed remainder. -/
def parseVal : Nat → List Char → Option (Json × List Char)
  | 0, _ => none
  | _ + 1, [] => none
  | fuel + 1, c :: rest =>
    if c.isDigit then
      some (.num ((parseNatAux (c :: rest) 0).1 : Int), (parseNatAux (c :: rest) 0).2)
    else if c = '-' then
      match rest with
      | [] => none
      | d :: _ =>
        if d.isDigit then
          some (.num (-((parseNatAux rest 0).1 : Int)), (parseNatAux rest 0).2)
        else none
    else if c = '"' then (parseStrAux rest).map (fun p => (.str ⟨p.1⟩, p.2))
    else if c = 'n' then
      if rest.take 3 = ['u', 'l', 'l'] then some (.null, rest.drop 3) else none
    else if c = 't' then
      if rest.take 3 = ['r', 'u', 'e'] then some (.bool true, rest.drop 3) else none
    else if c = 'f' then
      if rest.take 4 = ['a', 'l', 's', 'e'] then some (.bool false, rest.drop 4) else none
    else if c = '[' then (parseElems fuel rest).map (fun p => (.arr p.1, p.2))
    else if c = '\x7b' then (parseMembers fuel rest).map (fun p => (.obj p.1, p.2))
    else none

/-- Fuelled reading of the element list of a JSON array, including the
closing bracket. -/
def parseElems : Nat → List Char → Option (List Json × List Char)
  | 0, _ => none
  | fuel + 1, cs =>
    if cs.head? = some ']' then some ([], cs.tail)
    else
      match parseVal fuel cs with
      | none => none
      | some (v, r) =>
        if r.head? = some ',' then (parseElems fuel r.tail).map (fun p => (v :: p.1, p.2))
        else if r.head? = some ']' then some ([v], r.tail)
        else none

/-- Fuelled reading of the member list of a JSON object, including the
closing brace. -/
def parseMembers : Nat → List Char → Option (List (String × Json) × List Char)
  | 0, _ => none
  | fuel + 1, cs =>
    if cs.head? = some '\x7d' then some ([], cs.tail)
    else
      match cs with
      | '"' :: cs2 =>
        match parseStrAux cs2 with
        | none => none
        | some (k, r1) =>
          if r1.head? = some ':' then
            match parseVal fuel r1.tail with
            | none => none
            | some (v, r2) =>
              if r2.head? = some ',' then
                (parseMembers fuel r2.tail).map (fun p => ((⟨k⟩, v) :: p.1, p.2))
              else if r2.head? = some '\x7d' then some ([(⟨k⟩, v)], r2.tail)
              else none
          else none
      | _ => none

end

/-- Parsing of a whole string as one JSON value (`JSON.parse`); trailing
characters make the parse fail, as `JSON.parse` throws on them. -/
def jsonParse (s : String) : Option Json :=
  match parseVal (s.data.length + 1) s.data with
  | some (j, []) => some j
  | _ => none

/-- Remainders that cannot extend a maximal digit run: empty, or starting
with a non-digit. -/
def safeRest : List Char → Bool
  | [] => true
  | c :: _ => !c.isDigit

theorem renderChars_null : renderChars Json.null = ['n', 'u', 'l', 'l'] := by
  simp [renderChars]

theorem renderChars_true : renderChars (Json.bool true) = ['t', 'r', 'u', 'e'] := by
  simp [renderChars]

theorem renderChars_false : renderChars (Json.bool false) = ['f', 'a', 'l', 's', 'e'] := by
  simp [renderChars]

theorem digitChar_isDigit {d : Nat} (h : d < 10) : (digitChar d).isDigit = true := by
  interval_cases d <;> decide

theorem digitChar_toNat {d : Nat} (h : d < 10) : (digitChar d).toNat = 48 + d := by
  interval_cases d <;> decide

theorem isDigit_ne {c x : Char} (h : c.isDigit = true) (hx : x.isDigit = false) : c ≠ x := by
  intro he
  rw [he, hx] at h
  cases h

theorem parseNatAux_digits (ds : List Nat) (hds : ∀ d ∈ ds, d < 10) (rest : List Char)
    (hrest : safeRest rest = true) (acc : Nat) :
    parseNatAux (ds.map digitChar ++ rest) acc =
      (ds.foldl (fun a d => a * 10 + d) acc, rest) := by
  induction ds generalizing acc with
  | nil =>
    cases rest with
    | nil => rfl
    | cons c t =>
      have hc : c.isDigit = false := by
        simpa [safeRest] using hrest
      simp [parseNatAux, hc]
  | cons d ds ih =>
    have hd : d < 10 := hds d (by simp)
    have h1 : (digitChar d).isDigit = true := digitChar_isDigit hd
    have h2 : (digitChar d).toNat = 48 + d := digitChar_toNat hd
    have step : parseNatAux (digitChar d :: (ds.map digitChar ++ rest)) acc
        = parseNatAux (ds.map digitChar ++ rest) (acc * 10 + d) := by
      rw [parseNatAux, if_pos h1, h2]
      congr 1
      omega
    simp only [List.map_cons, List.cons_append, step]
    rw [ih (fun x hx => hds x (by simp [hx]))]
    rfl

theorem foldl_base10 (l : List Nat) (a : Nat) :
    l.foldl (fun x d => x * 10 + d) a = a * 10 ^ l.length + Nat.ofDigits 10 l.reverse := by
  induction l generalizing a with
  | nil => simp
  | cons d l ih =>
    simp only [List.foldl_cons, ih, List.length_cons, List.reverse_cons, Nat.ofDigits_append]
    simp [Nat.ofDigits_singleton, pow_succ]
    ring

theorem parseNatAux_renderNat (n : Nat) (rest : List Char) (hrest : safeRest rest = true) :
    parseNatAux (renderNat n ++ rest) 0 = (n, rest) := by
  by_cases hn : n = 0
  · subst hn
    have : renderNat 0 = ['0'] := rfl
    rw [this]
    have h0 : ('0' : Char).isDigit = true := by decide
    cases rest with
    | nil => simp [parseNatAux]
    | cons c t =>
      have hc : c.isDigit = false := by simpa [safeRest] using hrest
      simp [parseNatAux, hc]
  · have hrn : renderNat n = (Nat.digits 10 n).reverse.map digitChar := by
      simp [renderNat, hn]
    rw [hrn,
      parseNatAux_digits _ (fun d hd => Nat.digits_lt_base (by norm_num) (List.mem_reverse.mp hd))
        rest hrest 0,
      foldl_base10]
    simp [Nat.ofDigits_digits]

theorem renderNat_head (n : Nat) : ∃ c t, renderNat n = c :: t ∧ c.isDigit = true := by
  by_cases hn : n = 0
  · exact ⟨'0', [], by simp [renderNat, hn], by decide⟩
  · have hne : Nat.digits 10 n ≠ [] := Nat.digits_ne_nil_iff_ne_zero.mpr hn
    have hne2 : (Nat.digits 10 n).reverse ≠ [] := by simpa using hne
    cases hl : (Nat.digits 10 n).reverse with
    | nil => exact absurd hl hne2
    | cons d t =>
      have hd : d < 10 := by
        apply Nat.digits_lt_base (by norm_num)
        have : d ∈ (Nat.digits 10 n).reverse := by rw [hl]; simp
        exact List.mem_reverse.mp this
      exact ⟨digitChar d, t.map digitChar, by simp [renderNat, hn, hl],
        digitChar_isDigit hd⟩

mutual

/-- Fuel sufficient for `parseVal` to read back the serialization of `j`. -/
def fuelNeed : Json → Nat
  | .arr l => 1 + fuelNeedElems l
  | .obj m => 1 + fuelNeedMembers m
  | _ => 1

/-- Fuel sufficient for `parseElems` on the serialization of `l`. -/
def fuelNeedElems : List Json → Nat
  | [] => 1
  | v :: l => 1 + max (fuelNeed v) (fuelNeedElems l)

/-- Fuel sufficient for `parseMembers` on the serialization of `m`. -/
def fuelNeedMembers : List (String × Json) → Nat
  | [] => 1
  | kv :: m => 1 + max (fuelNeed kv.2) (fuelNeedMembers m)

end

theorem fuelNeed_pos (j : Json) : 1 ≤ fuelNeed j := by
  cases j <;> simp [fuelNeed]

theorem fuelNeedElems_pos (l : List Json) : 1 ≤ fuelNeedElems l := by
  cases l <;> simp [fuelNeedElems]

theorem fuelNeedMembers_pos (m : List (String × Json)) : 1 ≤ fuelNeedMembers m := by
  cases m with
  | nil => simp [fuelNeedMembers]
  | cons p m => cases p; simp [fuelNeedMembers]

theorem renderChars_head (j : Json) :
    ∃ c t, renderChars j = c :: t ∧ c ≠ ']' ∧ c ≠ '\x7d' := by
  cases j with
  | null => exact ⟨'n', ['u', 'l', 'l'], renderChars_null, by decide, by decide⟩
  | bool b =>
    cases b with
    | true => exact ⟨'t', ['r', 'u', 'e'], renderChars_true, by decide, by decide⟩
    | false => exact ⟨'f', ['a', 'l', 's', 'e'], renderChars_false, by decide, by decide⟩
  | num i =>
    by_cases hi : i < 0
    · exact ⟨'-', renderNat i.natAbs, by simp [renderChars, renderInt, hi], by decide, by decide⟩
    · obtain ⟨c0, t0, heq, hd0⟩ := renderNat_head i.natAbs
      exact ⟨c0, t0, by simp [renderChars, renderInt, hi, heq],
        isDigit_ne hd0 (by decide), isDigit_ne hd0 (by decide)⟩
  | str s =>
    exact ⟨'"', escChars s.data ++ ['"'], by simp [renderChars], by decide, by decide⟩
  | arr l =>
    exact ⟨'[', renderElems l ++ [']'], by simp [renderChars], by decide, by decide⟩
  | obj m =>
    exact ⟨'\x7b', renderMembers m ++ ['\x7d'], by simp [renderChars], by decide, by decide⟩

theorem renderChars_length_pos (j : Json) : 1 ≤ (renderChars j).length := by
  obtain ⟨c, t, h, _, _⟩ := renderChars_head j
  simp [h]

theorem parseStrAux_escChars (s : List Char) (rest : List Char) :
    parseStrAux (escChars s ++ '"' :: rest) = some (s, rest) := by
  induction s with
  | nil =>
    simp only [escChars, List.nil_append]
    rw [parseStrAux.eq_def]
    simp
  | cons c t ih =>
    by_cases h1 : c = '"'
    · subst h1
      have hesc : escChar '"' = ['\\', '"'] := rfl
      simp only [escChars, hesc, List.cons_append, List.nil_append]
      rw [parseStrAux.eq_def]
      simp [unescChar, ih]
    · by_cases h2 : c = '\\'
      · subst h2
        have hesc : escChar '\\' = ['\\', '\\'] := rfl
        simp only [escChars, hesc, List.cons_append, List.nil_append]
        rw [parseStrAux.eq_def]
        simp [unescChar, ih]
      · by_cases h3 : c = '\n'
        · subst h3
          have hesc : escChar '\n' = ['\\', 'n'] := rfl
          simp only [escChars, hesc, List.cons_append, List.nil_append]
          rw [parseStrAux.eq_def]
          simp [unescChar, ih]
        · by_cases h4 : c = '\r'
          · subst h4
            have hesc : escChar '\r' = ['\\', 'r'] := rfl
            simp only [escChars, hesc, List.cons_append, List.nil_append]
            rw [parseStrAux.eq_def]
            simp [unescChar, ih]
          · by_cases h5 : c = '\t'
            · subst h5
              have hesc : escChar '\t' = ['\\', 't'] := rfl
              simp only [escChars, hesc, List.cons_append, List.nil_append]
              rw [parseStrAux.eq_def]
              simp [unescChar, ih]
            · have hesc : escChar c = [c] := by
                simp [escChar, h1, h2, h3, h4, h5]
              simp only [escChars, hesc, List.cons_append, List.nil_append]
              rw [parseStrAux.eq_def]
              simp [h1, h2, ih]

theorem parseVal_renderInt (i : Int) (rest : List Char) (f : Nat)
    (hrest : safeRest rest = true) :
    parseVal (f + 1) (renderChars (.num i) ++ rest) = some (.num i, rest) := by
  obtain ⟨c0, t0, heq, hd0⟩ := renderNat_head i.natAbs
  have hpn := parseNatAux_renderNat i.natAbs rest hrest
  rw [heq] at hpn
  simp only [List.cons_append] at hpn
  by_cases hi : i < 0
  · have hin : renderChars (.num i) ++ rest = '-' :: c0 :: (t0 ++ rest) := by
      simp [renderChars, renderInt, hi, heq]
    have habs : (↑i.natAbs : Int) = -i := by
      rw [Int.natCast_natAbs, abs_of_neg hi]
    rw [hin, parseVal.eq_def]
    simp [hd0, hpn, habs, Int.negOfNat_eq, Int.ofNat_eq_natCast]
  · have hin : renderChars (.num i) ++ rest = c0 :: (t0 ++ rest) := by
      simp [renderChars, renderInt, hi, heq]
    rw [hin, parseVal.eq_def]
    simp [hd0, hpn]
    omega

theorem parseVal_renderStr (s : String) (rest : List Char) (f : Nat) :
    parseVal (f + 1) (renderChars (.str s) ++ rest) = some (.str s, rest) := by
  have h : renderChars (.str s) ++ rest = '"' :: (escChars s.data ++ '"' :: rest) := by
    simp [renderChars]
  rw [h, parseVal.eq_def]
  simp [parseStrAux_escChars]

mutual

theorem parseVal_render (j : Json) (rest : List Char) (fuel : Nat)
    (hf : fuelNeed j ≤ fuel) (hrest : safeRest rest = true) :
    parseVal fuel (renderChars j ++ rest) = some (j, rest) := by
  cases fuel with
  | zero =>
    have := fuelNeed_pos j
    omega
  | succ f =>
    cases j with
    | null =>
      have h : renderChars .null ++ rest = 'n' :: 'u' :: 'l' :: 'l' :: rest := by
        rw [renderChars_null]
        rfl
      rw [h, parseVal.eq_def]
      simp
    | bool b =>
      cases b with
      | true =>
        have h : renderChars (.bool true) ++ rest = 't' :: 'r' :: 'u' :: 'e' :: rest := by
          rw [renderChars_true]
          rfl
        rw [h, parseVal.eq_def]
        simp
      | false =>
        have h : renderChars (.bool false) ++ rest = 'f' :: 'a' :: 'l' :: 's' :: 'e' :: rest := by
          rw [renderChars_false]
          rfl
        rw [h, parseVal.eq_def]
        simp
    | num i => exact parseVal_renderInt i rest f hrest
    | str s => exact parseVal_renderStr s rest f
    | arr l =>
      have h : renderChars (.arr l) ++ rest = '[' :: (renderElems l ++ ']' :: rest) := by
        simp [renderChars]
      have he : parseElems f (renderElems l ++ ']' :: rest) = some (l, rest) :=
        parseElems_render l rest f (by simp only [fuelNeed] at hf; omega)
      rw [h, parseVal.eq_def]
      simp [he]
    | obj m =>
      have h : renderChars (.obj m) ++ rest = '\x7b' :: (renderMembers m ++ '\x7d' :: rest) := by
        simp [renderChars]
      have he : parseMembers f (renderMembers m ++ '\x7d' :: rest) = some (m, rest) :=
        parseMembers_render m rest f (by simp only [fuelNeed] at hf; omega)
      rw [h, parseVal.eq_def]
      simp [he]

theorem parseElems_render (l : List Json) (rest : List Char) (fuel : Nat)
    (hf : fuelNeedElems l ≤ fuel) :
    parseElems fuel (renderElems l ++ ']' :: rest) = some (l, rest) := by
  cases fuel with
  | zero =>
    have := fuelNeedElems_pos l
    omega
  | succ f =>
    cases l with
    | nil =>
      have h : renderElems ([] : List Json) ++ ']' :: rest = ']' :: rest := by
        simp [renderElems]
      rw [h, parseElems.eq_def]
      simp
    | cons v l2 =>
      obtain ⟨c0, t0, heq, hne1, hne2⟩ := renderChars_head v
      have hfv : fuelNeed v ≤ f := by
        simp only [fuelNeedElems] at hf
        omega
      cases l2 with
      | nil =>
        have h : renderElems [v] ++ ']' :: rest = renderChars v ++ ']' :: rest := by
          simp [renderElems]
        have hv := parseVal_render v (']' :: rest) f hfv (by simp [safeRest])
        rw [heq] at hv
        simp only [List.cons_append] at hv
        rw [h, heq, parseElems.eq_def]
        simp only [List.cons_append]
        simp [hne1, hv]
      | cons w l3 =>
        have h : renderElems (v :: w :: l3) ++ ']' :: rest
            = renderChars v ++ ',' :: (renderElems (w :: l3) ++ ']' :: rest) := by
          simp [renderElems]
        have hv := parseVal_render v (',' :: (renderElems (w :: l3) ++ ']' :: rest)) f hfv
          (by simp [safeRest])
        have hrec := parseElems_render (w :: l3) rest f
          (by simp only [fuelNeedElems] at hf ⊢; omega)
        rw [heq] at hv
        simp only [List.cons_append] at hv
        rw [h, heq, parseElems.eq_def]
        simp only [List.cons_append]
        simp [hne1, hv, hrec]

theorem parseMembers_render (m : List (String × Json)) (rest : List Char) (fuel : Nat)
    (hf : fuelNeedMembers m ≤ fuel) :
    parseMembers fuel (renderMembers m ++ '\x7d' :: rest) = some (m, rest) := by
  cases fuel with
  | zero =>
    have := fuelNeedMembers_pos m
    omega
  | succ f =>
    cases m with
    | nil =>
      have h : renderMembers ([] : List (String × Json)) ++ '\x7d' :: rest = '\x7d' :: rest := by
        simp [renderMembers]
      rw [h, parseMembers.eq_def]
      simp
    | cons kv m2 =>
      obtain ⟨k, v⟩ := kv
      have hfv : fuelNeed v ≤ f := by
        simp only [fuelNeedMembers] at hf
        omega
      cases m2 with
      | nil =>
        have h : renderMembers [(k, v)] ++ '\x7d' :: rest
            = '"' :: (escChars k.data ++ '"' :: (':' :: (renderChars v ++ '\x7d' :: rest))) := by
          simp [renderMembers]
        have hk := parseStrAux_escChars k.data (':' :: (renderChars v ++ '\x7d' :: rest))
        have hv := parseVal_render v ('\x7d' :: rest) f hfv (by simp [safeRest])
        rw [h, parseMembers.eq_def]
        simp [hk, hv]
      | cons kv2 m3 =>
        have h : renderMembers ((k, v) :: kv2 :: m3) ++ '\x7d' :: rest
            = '"' :: (escChars k.data ++ '"' ::
                (':' :: (renderChars v ++ ',' :: (renderMembers (kv2 :: m3) ++ '\x7d' :: rest)))) := by
          simp [renderMembers]
        have hk := parseStrAux_escChars k.data
          (':' :: (renderChars v ++ ',' :: (renderMembers (kv2 :: m3) ++ '\x7d' :: rest)))
        have hv := parseVal_render v (',' :: (renderMembers (kv2 :: m3) ++ '\x7d' :: rest)) f hfv
          (by simp [safeRest])
        have hrec := parseMembers_render (kv2 :: m3) rest f
          (by simp only [fuelNeedMembers] at hf ⊢; omega)
        rw [h, parseMembers.eq_def]
        simp [hk, hv, hrec]

end

mutual

theorem fuelNeed_le (j : Json) : fuelNeed j ≤ (renderChars j).length := by
  cases j with
  | null => simp [fuelNeed, renderChars_null]
  | bool b => cases b <;> simp [fuelNeed, renderChars_true, renderChars_false]
  | num i =>
    have := renderChars_length_pos (.num i)
    simpa [fuelNeed] using this
  | str s => simp [fuelNeed, renderChars]
  | arr l =>
    have h := fuelNeedElems_le l
    simp only [fuelNeed, renderChars, List.length_cons, List.length_append]
    simp
    omega
  | obj m =>
    have h := fuelNeedMembers_le m
    simp only [fuelNeed, renderChars, List.length_cons, List.length_append]
    simp
    omega

theorem fuelNeedElems_le (l : List Json) : fuelNeedElems l ≤ (renderElems l).length + 1 := by
  cases l with
  | nil => simp [fuelNeedElems, renderElems]
  | cons v l2 =>
    have h1 := fuelNeed_le v
    have h2 := renderChars_length_pos v
    cases l2 with
    | nil =>
      simp only [fuelNeedElems, renderElems]
      simp [fuelNeedElems]
      omega
    | cons w l3 =>
      have h3 := fuelNeedElems_le (w :: l3)
      simp only [fuelNeedElems, renderElems, List.length_append, List.length_cons] at h3 ⊢
      omega

theorem fuelNeedMembers_le (m : List (String × Json)) :
    fuelNeedMembers m ≤ (renderMembers m).length + 1 := by
  cases m with
  | nil => simp [fuelNeedMembers, renderMembers]
  | cons kv m2 =>
    obtain ⟨k, v⟩ := kv
    have h1 := fuelNeed_le v
    have h2 := renderChars_length_pos v
    cases m2 with
    | nil =>
      simp only [fuelNeedMembers, renderMembers]
      simp [fuelNeedMembers]
      omega
    | cons kv2 m3 =>
      have h3 := fuelNeedMembers_le (kv2 :: m3)
      simp only [fuelNeedMembers, renderMembers, List.length_append, List.length_cons] at h3 ⊢
      omega

end

/-- Round-trip law for the JSON layer: parsing the serialization of any JSON
value yields that value back. -/
theorem jsonParse_renderString (j : Json) : jsonParse (renderString j) = some j := by
  have hle : fuelNeed j ≤ (renderChars j).length + 1 := by
    have := fuelNeed_le j
    omega
  have h := parseVal_render j [] ((renderChars j).length + 1) hle rfl
  rw [List.append_nil] at h
  simp only [jsonParse]
  rw [show (renderString j).data = renderChars j from rfl]
  rw [h]

/-!
Server model: the sync-key variant of `src/app/api/phrases/route.ts`.
The Remote Store (Redis) is an association list from keys to the serialized
strings the handlers write; the module-level `rateLimit` map is an
association list from client identifiers to window records.  Each handler
returns its HTTP response, the updated server state, and the list of Remote
Store accesses it performed.
-/

/-- One entry of the in-memory `rateLimit` map: request count and window
reset time (epoch milliseconds). -/
structure RateRecord where
  count : Nat
  resetTime : Int
deriving DecidableEq

/-- Lookup in a string-keyed association list (`Map.get` / `redis.get`). -/
def getEntry {α : Type} : List (String × α) → String → Option α
  | [], _ => none
  | (k0, v) :: rest, k => if k0 = k then some v else getEntry rest k

/-- Insert-or-replace in a string-keyed association list
(`Map.set` / `redis.set`). -/
def setEntry {α : Type} : List (String × α) → String → α → List (String × α)
  | [], k, v => [(k, v)]
  | (k0, v0) :: rest, k, v =>
    if k0 = k then (k, v) :: rest else (k0, v0) :: setEntry rest k v

/-- The `checkRateLimit` function of `route.ts`: fixed-window counting per
client identifier.  Returns whether the request is allowed, together with
the updated map (the source mutates the module-level map in place). -/
def checkRateLimit (rate : List (String × RateRecord)) (identifier : String) (now : Int)
    (maxRequests : Nat) (windowMs : Int) : Bool × List (String × RateRecord) :=
  match getEntry rate identifier with
  | none => (true, setEntry rate identifier ⟨1, now + windowMs⟩)
  | some record =>
    if now > record.resetTime then (true, setEntry rate identifier ⟨1, now + windowMs⟩)
    else if record.count ≥ maxRequests then (false, rate)
    else (true, setEntry rate identifier ⟨record.count + 1, record.resetTime⟩)

/-- The validation regex `^[a-zA-Z0-9]{6,32}$` (`Char.isAlphanum` covers
exactly the ASCII ranges `a-z`, `A-Z`, `0-9`). -/
def isValidSyncKey (s : String) : Bool :=
  decide (6 ≤ s.length) && decide (s.length ≤ 32) && s.data.all (fun c => c.isAlphanum)

/-- Server-side state shared across requests: the Remote Store contents and
the rate-limit map. -/
structure ServerState where
  store : List (String × String)
  rate : List (String × RateRecord)

/-- A Remote Store access performed while handling one request. -/
inductive Access where
  | read (key : String)
  | write (key : String)
deriving DecidableEq

/-- Whether an access is a write. -/
def Access.isWrite : Access → Bool
  | .read _ => false
  | .write _ => true

/-- HTTP responses produced by the two handlers. -/
inductive ApiResponse where
  | okPhrases (phrases : Json)
  | okSuccess
  | rateLimited
  | badRequest (msg : String)
  | serverError (msg : String)

/-- HTTP status code of a response. -/
def ApiResponse.status : ApiResponse → Nat
  | .okPhrases _ => 200
  | .okSuccess => 200
  | .rateLimited => 429
  | .badRequest _ => 400
  | .serverError _ => 500

/-- A GET request: client identifier (from `getClientIp`) and the `syncKey`
query parameter (`none` when absent). -/
structure GetRequest where
  identifier : String
  syncKey : Option String

/-- The GET handler of `route.ts`: rate limit, validate `syncKey`, read
`phrases:<K>` from the Remote Store and parse it (`data ? JSON.parse(data)
: []`, with a parse exception caught as a 500). -/
def GET (req : GetRequest) (now : Int) (st : ServerState) :
    ApiResponse × ServerState × List Access :=
  let rl := checkRateLimit st.rate req.identifier now 60 60000
  let st2 : ServerState := { st with rate := rl.2 }
  if !rl.1 then (.rateLimited, st2, [])
  else
    match req.syncKey with
    | none => (.badRequest "Sync key is required", st2, [])
    | some k =>
      if k = "" then (.badRequest "Sync key is required", st2, [])
      else if !isValidSyncKey k then (.badRequest "Invalid sync key format", st2, [])
      else
        match getEntry st.store ("phrases:" ++ k) with
        | none => (.okPhrases (.arr []), st2, [.read ("phrases:" ++ k)])
        | some data =>
          if data = "" then (.okPhrases (.arr []), st2, [.read ("phrases:" ++ k)])
          else
            match jsonParse data with
            | some j => (.okPhrases j, st2, [.read ("phrases:" ++ k)])
            | none => (.serverError "Failed to load phrases", st2, [.read ("phrases:" ++ k)])

/-- A POST request: client identifier and the parsed JSON body (`none` when
`request.json()` throws because the body is not JSON). -/
structure PostRequest where
  identifier : String
  body : Option Json

/-- The POST handler of `route.ts`: rate limit, validate `body.syncKey`
(falsy or non-string values are rejected alike), require `body.phrases` to
be an array of at most 10000 entries, then serialize and overwrite
`phrases:<K>` in the Remote Store. -/
def POST (req : PostRequest) (now : Int) (st : ServerState) :
    ApiResponse × ServerState × List Access :=
  let rl := checkRateLimit st.rate req.identifier now 60 60000
  let st2 : ServerState := { st with rate := rl.2 }
  if !rl.1 then (.rateLimited, st2, [])
  else
    match req.body with
    | none => (.serverError "Failed to save phrases", st2, [])
    | some body =>
      match body.getField "syncKey" with
      | some (.str k) =>
        if k = "" then (.badRequest "Sync key is required", st2, [])
        else if !isValidSyncKey k then (.badRequest "Invalid sync key format", st2, [])
        else
          match body.getField "phrases" with
          | some (.arr l) =>
            if l.length > 10000 then (.badRequest "Too many phrases (max 10000)", st2, [])
            else
              (.okSuccess,
               { st2 with store := setEntry st.store ("phrases:" ++ k) (renderString (.arr l)) },
               [.write ("phrases:" ++ k)])
          | _ => (.badRequest "Phrases must be an array", st2, [])
      | _ => (.badRequest "Sync key is required", st2, [])

theorem getEntry_setEntry_self {α : Type} (l : List (String × α)) (k : String) (v : α) :
    getEntry (setEntry l k v) k = some v := by
  induction l with
  | nil => simp [setEntry, getEntry]
  | cons kv rest ih =>
    obtain ⟨k0, v0⟩ := kv
    by_cases h : k0 = k
    · subst h
      simp [setEntry, getEntry]
    · simp [setEntry, getEntry, h, ih]

theorem getEntry_setEntry_ne {α : Type} (l : List (String × α)) (k k' : String) (v : α)
    (h : ¬ k = k') : getEntry (setEntry l k v) k' = getEntry l k' := by
  induction l with
  | nil => simp [setEntry, getEntry, h]
  | cons kv rest ih =>
    obtain ⟨k0, v0⟩ := kv
    by_cases h0 : k0 = k
    · subst h0
      simp [setEntry, getEntry, h]
    · simp [setEntry, getEntry, h0, ih]

theorem GET_store_eq (req : GetRequest) (now : Int) (st : ServerState) :
    (GET req now st).2.1.store = st.store := by
  unfold GET
  dsimp only
  repeat' split <;> try rfl

theorem GET_rate_eq (req : GetRequest) (now : Int) (st : ServerState) :
    (GET req now st).2.1.rate = (checkRateLimit st.rate req.identifier now 60 60000).2 := by
  unfold GET
  dsimp only
  repeat' split <;> try rfl

theorem GET_reads_only (req : GetRequest) (now : Int) (st : ServerState) :
    ((GET req now st).2.2.all (fun a => !a.isWrite)) = true := by
  unfold GET
  dsimp only
  repeat' split <;> try rfl

theorem GET_rateLimited (req : GetRequest) (now : Int) (st : ServerState)
    (hr : (checkRateLimit st.rate req.identifier now 60 60000).1 = false) :
    (GET req now st).1 = .rateLimited := by
  unfold GET
  dsimp only
  rw [hr]
  rfl

theorem GET_ok_empty (idf k : String) (now : Int) (st : ServerState)
    (hr : (checkRateLimit st.rate idf now 60 60000).1 = true)
    (hk : isValidSyncKey k = true)
    (hs : getEntry st.store ("phrases:" ++ k) = none) :
    (GET ⟨idf, some k⟩ now st).1 = .okPhrases (.arr []) := by
  have hne : ¬ k = "" := by
    intro he
    rw [he] at hk
    exact absurd hk (by decide)
  unfold GET
  dsimp only
  rw [hr, hs]
  simp [hne, hk]

/-- Sequential processing of GET requests by one server process, threading
the shared state (rate-limit map and Remote Store). -/
def processGets : List (GetRequest × Int) → ServerState → List ApiResponse × ServerState
  | [], st => ([], st)
  | (r, t) :: rest, st =>
    let q := GET r t st
    let qs := processGets rest q.2.1
    (q.1 :: qs.1, qs.2)

theorem processGets_accum (idf key : String) (ts : List Int) (st : ServerState)
    (c : Nat) (R : Int)
    (hc : getEntry st.rate idf = some ⟨c, R⟩)
    (hin : ∀ t ∈ ts, t ≤ R)
    (hcnt : c + ts.length ≤ 60) :
    getEntry (processGets (ts.map (fun t => (⟨idf, some key⟩, t))) st).2.rate idf
        = some ⟨c + ts.length, R⟩ ∧
      (processGets (ts.map (fun t => (⟨idf, some key⟩, t))) st).2.store = st.store := by
  induction ts generalizing st c with
  | nil =>
    simp only [List.map_nil, processGets, List.length_nil, Nat.add_zero]
    exact ⟨hc, trivial⟩
  | cons t ts ih =>
    have hnotr : ¬ t > R := by
      have := hin t (by simp)
      omega
    have hlt : ¬ c ≥ 60 := by
      simp only [List.length_cons] at hcnt
      omega
    have hrl : checkRateLimit st.rate idf t 60 60000 = (true, setEntry st.rate idf ⟨c + 1, R⟩) := by
      unfold checkRateLimit
      rw [hc]
      simp [hnotr, hlt]
    have hrate : (GET ⟨idf, some key⟩ t st).2.1.rate = setEntry st.rate idf ⟨c + 1, R⟩ := by
      rw [GET_rate_eq]
      rw [hrl]
    have hstore := GET_store_eq ⟨idf, some key⟩ t st
    have ih2 := ih ((GET ⟨idf, some key⟩ t st).2.1) (c + 1)
      (by rw [hrate]; exact getEntry_setEntry_self _ _ _)
      (fun u hu => hin u (by simp [hu]))
      (by simp only [List.length_cons] at hcnt; omega)
    simp only [List.map_cons, processGets]
    rw [hstore] at ih2
    refine ⟨?_, ih2.2⟩
    rw [ih2.1]
    have : c + 1 + ts.length = c + (t :: ts).length := by
      simp only [List.length_cons]
      omega
    rw [this]

/-- C7: starting from a state with no rate-limit record for the client
identifier, a first phrase-endpoint request at `t0` followed by 59 more
requests inside the window `[t0, t0 + 60000]` are all counted; the 61st
request, still inside the window, is answered with status 429; and a further
request after the window's reset time has elapsed succeeds again (here a GET
with a valid key over an empty store, answered 200 with an empty collection)
with the counter restarted at 1. -/
theorem rate_limit_window (idf key : String) (st0 : ServerState) (t0 tlast t2 : Int)
    (mid : List Int)
    (hfresh : getEntry st0.rate idf = none)
    (hlen : mid.length = 59)
    (hmid : ∀ t ∈ mid, t ≤ t0 + 60000)
    (hlast : tlast ≤ t0 + 60000)
    (hkey : isValidSyncKey key = true)
    (hstore : getEntry st0.store ("phrases:" ++ key) = none)
    (ht2 : t2 > t0 + 60000) :
    ((GET ⟨idf, some key⟩ tlast
        (processGets (mid.map (fun t => (⟨idf, some key⟩, t)))
          (GET ⟨idf, some key⟩ t0 st0).2.1).2).1.status = 429) ∧
    ((GET ⟨idf, some key⟩ t2
        (GET ⟨idf, some key⟩ tlast
          (processGets (mid.map (fun t => (⟨idf, some key⟩, t)))
            (GET ⟨idf, some key⟩ t0 st0).2.1).2).2.1).1 = .okPhrases (.arr [])) ∧
    (getEntry (GET ⟨idf, some key⟩ t2
        (GET ⟨idf, some key⟩ tlast
          (processGets (mid.map (fun t => (⟨idf, some key⟩, t)))
            (GET ⟨idf, some key⟩ t0 st0).2.1).2).2.1).2.1.rate idf
      = some ⟨1, t2 + 60000⟩) := by
  set stA := (GET ⟨idf, some key⟩ t0 st0).2.1 with hstA
  set stB := (processGets (mid.map (fun t => (⟨idf, some key⟩, t))) stA).2 with hstB
  have hrl0 : checkRateLimit st0.rate idf t0 60 60000
      = (true, setEntry st0.rate idf ⟨1, t0 + 60000⟩) := by
    unfold checkRateLimit
    rw [hfresh]
  have h1rate : stA.rate = setEntry st0.rate idf ⟨1, t0 + 60000⟩ := by
    rw [hstA, GET_rate_eq]
    rw [hrl0]
  have h1store : stA.store = st0.store := by
    rw [hstA]
    exact GET_store_eq _ _ _
  have hacc := processGets_accum idf key mid stA 1 (t0 + 60000)
    (by rw [h1rate]; exact getEntry_setEntry_self _ _ _)
    hmid
    (by rw [hlen])
  obtain ⟨haccr, haccs⟩ := hacc
  rw [h1store] at haccs
  have haccr60 : getEntry stB.rate idf = some ⟨60, t0 + 60000⟩ := by
    rw [← hstB] at haccr
    rw [haccr, hlen]
  have hrlB : checkRateLimit stB.rate idf tlast 60 60000 = (false, stB.rate) := by
    unfold checkRateLimit
    rw [haccr60]
    simp [show ¬ tlast > t0 + 60000 by omega]
  have h61 : (GET ⟨idf, some key⟩ tlast stB).1 = .rateLimited :=
    GET_rateLimited _ _ _ (by rw [hrlB])
  have h61rate : (GET ⟨idf, some key⟩ tlast stB).2.1.rate = stB.rate := by
    rw [GET_rate_eq]
    rw [hrlB]
  have h61store : (GET ⟨idf, some key⟩ tlast stB).2.1.store = st0.store := by
    rw [GET_store_eq]
    rw [← hstB] at haccs
    exact haccs
  have hrlF : checkRateLimit (GET ⟨idf, some key⟩ tlast stB).2.1.rate idf t2 60 60000
      = (true, setEntry stB.rate idf ⟨1, t2 + 60000⟩) := by
    rw [h61rate]
    unfold checkRateLimit
    rw [haccr60]
    simp [ht2]
  refine ⟨?_, ?_, ?_⟩
  · rw [h61]
    rfl
  · exact GET_ok_empty idf key t2 _ (by rw [hrlF]) hkey (by rw [h61store]; exact hstore)
  · rw [GET_rate_eq]
    rw [hrlF]
    exact getEntry_setEntry_self _ _ _

/-- Witness for `rate_limit_window`: identifier `"ip"`, key `"abcdef"`, an
empty initial state, 61 requests at time 0 and one more at time 60001. -/
theorem rate_limit_window_witness :
    ((GET ⟨"ip", some "abcdef"⟩ 0
        (processGets ((List.replicate 59 (0 : Int)).map (fun t => (⟨"ip", some "abcdef"⟩, t)))
          (GET ⟨"ip", some "abcdef"⟩ 0 ⟨[], []⟩).2.1).2).1.status = 429) ∧
    ((GET ⟨"ip", some "abcdef"⟩ 60001
        (GET ⟨"ip", some "abcdef"⟩ 0
          (processGets ((List.replicate 59 (0 : Int)).map (fun t => (⟨"ip", some "abcdef"⟩, t)))
            (GET ⟨"ip", some "abcdef"⟩ 0 ⟨[], []⟩).2.1).2).2.1).1 = .okPhrases (.arr [])) ∧
    (getEntry (GET ⟨"ip", some "abcdef"⟩ 60001
        (GET ⟨"ip", some "abcdef"⟩ 0
          (processGets ((List.replicate 59 (0 : Int)).map (fun t => (⟨"ip", some "abcdef"⟩, t)))
            (GET ⟨"ip", some "abcdef"⟩ 0 ⟨[], []⟩).2.1).2).2.1).2.1.rate "ip"
      = some ⟨1, 60001 + 60000⟩) :=
  rate_limit_window "ip" "abcdef" ⟨[], []⟩ 0 0 60001 (List.replicate 59 0)
    rfl (by decide)
    (fun t ht => by rw [List.eq_of_mem_replicate ht]; decide)
    (by decide) (by decide) rfl (by decide)

theorem renderString_ne_empty (j : Json) : ¬ renderString j = "" := by
  intro h
  have hd := congrArg String.data h
  rw [show (renderString j).data = renderChars j from rfl] at hd
  have hp := renderChars_length_pos j
  rw [hd] at hp
  simp at hp

/-- C1: a successful POST of a collection `P` (valid sync key matching
`^[a-zA-Z0-9]{6,32}$`, at most 10000 entries, within the rate limit) writes
the serialization of `P` under `phrases:<K>`; a following GET with the same
key, when within the rate limit, is answered 200 with a phrases array
deep-equal to `P` — serializing with `JSON.stringify` and re-parsing with
`JSON.parse` is the identity on the collection
(`jsonParse_renderString`). -/
theorem post_get_roundtrip (K : String) (P : List Json) (st : ServerState)
    (id1 id2 : String) (t1 t2 : Int)
    (hK : isValidSyncKey K = true) (hP : P.length ≤ 10000)
    (h1 : (checkRateLimit st.rate id1 t1 60 60000).1 = true)
    (h2 : (checkRateLimit
        (POST ⟨id1, some (.obj [("syncKey", .str K), ("phrases", .arr P)])⟩ t1 st).2.1.rate
        id2 t2 60 60000).1 = true) :
    (POST ⟨id1, some (.obj [("syncKey", .str K), ("phrases", .arr P)])⟩ t1 st).1 = .okSuccess ∧
    (GET ⟨id2, some K⟩ t2
        (POST ⟨id1, some (.obj [("syncKey", .str K), ("phrases", .arr P)])⟩ t1 st).2.1).1
      = .okPhrases (.arr P) := by
  have hKne : ¬ K = "" := by
    intro he
    rw [he] at hK
    exact absurd hK (by decide)
  have hsk : (Json.obj [("syncKey", .str K), ("phrases", .arr P)]).getField "syncKey"
      = some (.str K) := by
    simp [Json.getField, Json.getField.go]
  have hph : (Json.obj [("syncKey", .str K), ("phrases", .arr P)]).getField "phrases"
      = some (.arr P) := by
    simp [Json.getField, Json.getField.go]
  have hlen : ¬ P.length > 10000 := by omega
  have hpost : POST ⟨id1, some (.obj [("syncKey", .str K), ("phrases", .arr P)])⟩ t1 st
      = (.okSuccess,
         { store := setEntry st.store ("phrases:" ++ K) (renderString (.arr P)),
           rate := (checkRateLimit st.rate id1 t1 60 60000).2 },
         [.write ("phrases:" ++ K)]) := by
    unfold POST
    dsimp only
    rw [h1, hsk, hph]
    simp [hKne, hK, hlen]
  constructor
  · rw [hpost]
  · rw [hpost] at h2 ⊢
    dsimp only at h2 ⊢
    unfold GET
    dsimp only
    rw [h2]
    rw [getEntry_setEntry_self]
    simp [hKne, hK, renderString_ne_empty, jsonParse_renderString]

/-- Witness for `post_get_roundtrip`: key `"abc123"`, a one-element
collection, an empty initial server state. -/
theorem post_get_roundtrip_witness :
    (POST ⟨"ip1", some (.obj [("syncKey", .str "abc123"),
        ("phrases", .arr [.str "hello"])])⟩ 0 ⟨[], []⟩).1 = .okSuccess ∧
    (GET ⟨"ip2", some "abc123"⟩ 1
        (POST ⟨"ip1", some (.obj [("syncKey", .str "abc123"),
          ("phrases", .arr [.str "hello"])])⟩ 0 ⟨[], []⟩).2.1).1
      = .okPhrases (.arr [.str "hello"]) :=
  post_get_roundtrip "abc123" [.str "hello"] ⟨[], []⟩ "ip1" "ip2" 0 1
    (by decide) (by decide) rfl (by rfl)

/-- C10: the GET handler never writes to the Remote Store: after any GET
request (whatever its outcome — 200, 400, 429 or 500), every stored value is
exactly what it was before, and the Remote Store accesses performed contain
no write. -/
theorem get_never_writes (req : GetRequest) (now : Int) (st : ServerState) :
    (GET req now st).2.1.store = st.store ∧
      ((GET req now st).2.2.all (fun a => !a.isWrite)) = true :=
  ⟨GET_store_eq req now st, GET_reads_only req now st⟩

/-- C2 counterexample: a GET whose sync key `"bad!"` fails the pattern but
whose client is already rate-limited is answered 429, not 400, because
`checkRateLimit` runs before key validation. -/
theorem invalid_key_429_counterexample :
    isValidSyncKey "bad!" = false ∧
    (GET ⟨"ip", some "bad!"⟩ 5 ⟨[], [("ip", ⟨60, 10⟩)]⟩).1.status = 429 ∧
    ¬ (GET ⟨"ip", some "bad!"⟩ 5 ⟨[], [("ip", ⟨60, 10⟩)]⟩).1.status = 400 :=
  ⟨by decide, rfl, by decide⟩

/-- C2 (amended): for every request whose sync key fails the pattern
`^[a-zA-Z0-9]{6,32}$` (or is missing), GET and POST perform no Remote Store
access and leave the store unchanged; when the request is within the rate
limit the status is 400 (a rate-limited request is answered 429 instead,
since the limiter runs before validation). -/
theorem invalid_key_rejected (idf k : String) (now : Int) (st : ServerState) (body : Json)
    (hk : isValidSyncKey k = false) :
    ((GET ⟨idf, some k⟩ now st).2.2 = [] ∧
      (GET ⟨idf, some k⟩ now st).2.1.store = st.store ∧
      ((checkRateLimit st.rate idf now 60 60000).1 = true →
        (GET ⟨idf, some k⟩ now st).1.status = 400)) ∧
    ((GET ⟨idf, none⟩ now st).2.2 = [] ∧
      ((checkRateLimit st.rate idf now 60 60000).1 = true →
        (GET ⟨idf, none⟩ now st).1.status = 400)) ∧
    (body.getField "syncKey" = some (.str k) →
      (POST ⟨idf, some body⟩ now st).2.2 = [] ∧
      (POST ⟨idf, some body⟩ now st).2.1.store = st.store ∧
      ((checkRateLimit st.rate idf now 60 60000).1 = true →
        (POST ⟨idf, some body⟩ now st).1.status = 400)) := by
  refine ⟨?_, ?_, ?_⟩
  · unfold GET
    dsimp only
    cases hr : (checkRateLimit st.rate idf now 60 60000).1 with
    | false =>
      refine ⟨rfl, rfl, ?_⟩
      intro h
      cases h
    | true =>
      by_cases hke : k = ""
      · simp [hke, ApiResponse.status]
      · simp [hke, hk, ApiResponse.status]
  · unfold GET
    dsimp only
    cases hr : (checkRateLimit st.rate idf now 60 60000).1 with
    | false =>
      refine ⟨rfl, ?_⟩
      intro h
      cases h
    | true => simp [ApiResponse.status]
  · intro hbody
    unfold POST
    dsimp only
    rw [hbody]
    cases hr : (checkRateLimit st.rate idf now 60 60000).1 with
    | false =>
      refine ⟨rfl, rfl, ?_⟩
      intro h
      cases h
    | true =>
      by_cases hke : k = ""
      · simp [hke, ApiResponse.status]
      · simp [hke, hk, ApiResponse.status]

/-- Witness for `invalid_key_rejected`: key `"bad!"`, an empty server
state, with every inner hypothesis discharged. -/
theorem invalid_key_rejected_witness :
    (GET ⟨"ip", some "bad!"⟩ 0 ⟨[], []⟩).2.2 = [] ∧
    (GET ⟨"ip", some "bad!"⟩ 0 ⟨[], []⟩).2.1.store = ([] : List (String × String)) ∧
    (GET ⟨"ip", some "bad!"⟩ 0 ⟨[], []⟩).1.status = 400 ∧
    (GET ⟨"ip", none⟩ 0 ⟨[], []⟩).1.status = 400 ∧
    (POST ⟨"ip", some (.obj [("syncKey", .str "bad!")])⟩ 0 ⟨[], []⟩).2.2 = [] ∧
    (POST ⟨"ip", some (.obj [("syncKey", .str "bad!")])⟩ 0 ⟨[], []⟩).1.status = 400 := by
  have h := invalid_key_rejected "ip" "bad!" 0 ⟨[], []⟩
    (.obj [("syncKey", .str "bad!")]) (by decide)
  exact ⟨h.1.1, h.1.2.1, h.1.2.2 rfl, h.2.1.2 rfl, (h.2.2 rfl).1, (h.2.2 rfl).2.2 rfl⟩

/-!
Client model: the sync coordinator of `src/app/page.tsx` (sync-key variant).
React state and refs become a `ClientState`; `localStorage` keys
`viet-phrases` and `viet-sync-key` are the `localPhrases` and `localKey`
fields (held at value level — the client's own `JSON.stringify`/`JSON.parse`
round trip through `localStorage` is covered by the JSON layer above);
`syncTimeoutRef` is the `pending` timer.  Network activity is logged:
`posts` records the bodies of `POST /api/phrases` requests in order, `gets`
the `syncKey` query of `GET /api/phrases` requests.  The save effect
(`useEffect` over `[phrases, syncKey]`) runs after every handler that
changes those dependencies and is therefore invoked at the end of each
handler below.
-/

/-- The JavaScript `String.prototype.trim()` of the client code, modelled
over the character list (ASCII whitespace). -/
def jsTrim (s : String) : String :=
  ⟨((s.data.dropWhile (fun c => c.isWhitespace)).reverse.dropWhile
      (fun c => c.isWhitespace)).reverse⟩

/-- The JavaScript `String.prototype.toLowerCase()` of the client code,
modelled over the character list. -/
def jsToLower (s : String) : String := ⟨s.data.map Char.toLower⟩

/-- The `Phrase` interface of `page.tsx`. -/
structure Phrase where
  id : String
  english : String
  vietnamese : String
  phonetic : String
  category : String
  createdAt : Int
  reviewCount : Nat
  lastReviewed : Option Int
deriving DecidableEq

/-- The `TranslationResponse` interface of `page.tsx`. -/
structure TranslationResponse where
  vietnamese : String
  phonetic : String
  category : String
deriving DecidableEq

/-- A scheduled debounce push (`setTimeout` callback): the sync key and
collection captured by its closure, and its firing time. -/
structure TimerTask where
  key : String
  payload : List Phrase
  fireAt : Int
deriving DecidableEq

/-- The client-side state of the sync coordinator. -/
structure ClientState where
  phrases : List Phrase
  currentPhrase : Option Phrase
  syncKey : String
  localPhrases : Option (List Phrase)
  localKey : Option String
  pending : Option TimerTask
  posts : List (String × List Phrase)
  gets : List String
deriving DecidableEq

/-- The save effect (`useEffect` over `[phrases, syncKey]`): when the
collection is non-empty and a sync key is set, write the collection to
Local Cache, clear any pending debounce timer and schedule a new push of
the current collection 1000 ms out; otherwise do nothing. -/
def saveEffect (s : ClientState) (now : Int) : ClientState :=
  if s.phrases.length > 0 ∧ ¬ s.syncKey = "" then
    { s with localPhrases := some s.phrases,
             pending := some ⟨s.syncKey, s.phrases, now + 1000⟩ }
  else s

/-- Firing of the pending debounce timer: POST the captured collection under
the captured key.  Nothing fires before the scheduled time. -/
def fireTimer (s : ClientState) (now : Int) : ClientState :=
  match s.pending with
  | none => s
  | some t =>
    if now ≥ t.fireAt then
      { s with posts := s.posts ++ [(t.key, t.payload)], pending := none }
    else s

/-- The new `Phrase` built by `handleSubmit` from a successful translation. -/
def mkPhrase (newId : String) (english : String) (tr : TranslationResponse) (now : Int) :
    Phrase :=
  ⟨newId, english, tr.vietnamese, tr.phonetic, tr.category, now, 0, none⟩

/-- The fallback `Phrase` built by `handleSubmit` when translation fails. -/
def mockPhrase (newId : String) (english : String) (now : Int) : Phrase :=
  ⟨newId, english, "[API key needed]", "[Configure API]", "uncategorized", now, 0, none⟩

/-- Adding a phrase: `setPhrases((prev) => [newPhrase, ...prev])` plus
`setCurrentPhrase`, followed by the save effect. -/
def applyAdd (s : ClientState) (p : Phrase) (now : Int) : ClientState :=
  saveEffect { s with phrases := p :: s.phrases, currentPhrase := some p } now

/-- `handleSubmit`: ignore empty or in-flight submissions; surface an
existing phrase whose `english` equals the trimmed input case-insensitively;
otherwise add the translated phrase (`tr` is the translation service's
response, `none` when it fails — then only `currentPhrase` is set, the
collection is unchanged). -/
def handleSubmit (s : ClientState) (input : String) (isLoading : Bool)
    (tr : Option TranslationResponse) (newId : String) (now : Int) : ClientState :=
  if jsTrim input = "" ∨ isLoading then s
  else
    match s.phrases.find? (fun p => jsToLower p.english == jsToLower (jsTrim input)) with
    | some existing => { s with currentPhrase := some existing }
    | none =>
      match tr with
      | some t => applyAdd s (mkPhrase newId (jsTrim input) t now) now
      | none => { s with currentPhrase := some (mockPhrase newId (jsTrim input) now) }

/-- `handleDeletePhrase`: when confirmed, filter the phrase out, clear
`currentPhrase` if it was the deleted one, then run the save effect. -/
def handleDeletePhrase (s : ClientState) (phraseId : String) (confirmed : Bool) (now : Int) :
    ClientState :=
  if confirmed then
    saveEffect
      { s with phrases := s.phrases.filter (fun p => p.id != phraseId),
               currentPhrase :=
                 match s.currentPhrase with
                 | some cp => if cp.id = phraseId then none else some cp
                 | none => none } now
  else s

/-- `handleClearAll`: when the collection is non-empty and the user
confirms, empty the collection, write the empty list to Local Cache, and
(if a sync key is set) POST the empty list immediately; the save effect then
runs with an empty collection and does nothing — in particular it does not
clear a pending timer. -/
def handleClearAll (s : ClientState) (confirmed : Bool) (now : Int) : ClientState :=
  if s.phrases.length = 0 then s
  else if confirmed then
    let s1 : ClientState :=
      { s with phrases := [], currentPhrase := none, localPhrases := some [] }
    let s2 : ClientState :=
      if ¬ s.syncKey = "" then { s1 with posts := s1.posts ++ [(s.syncKey, [])] } else s1
    saveEffect s2 now
  else s

/-- Outcome of a `fetch` of `GET /api/phrases`: `ok body` is a 2xx response
whose `data.phrases` is `body` (`none` when the field is absent);
`httpError` is a non-2xx response; `netError` is a thrown fetch error. -/
inductive FetchResult where
  | ok (body : Option (List Phrase))
  | httpError
  | netError

/-- `handleSetSyncKey` (key rotation): ignore blank input; persist the
trimmed key, replace the in-memory key, GET the phrases for the new key and
replace the collection with whatever came back (`data.phrases || []`); on a
non-2xx response or fetch error the collection is left as is.  The save
effect then runs (the `syncKey` dependency changed). -/
def handleSetSyncKey (s : ClientState) (newKey : String) (resp : FetchResult) (now : Int) :
    ClientState :=
  if jsTrim newKey = "" then s
  else
    let k := jsTrim newKey
    let s1 : ClientState := { s with localKey := some k, syncKey := k, gets := s.gets ++ [k] }
    let s2 : ClientState :=
      match resp with
      | .ok body => { s1 with phrases := body.getD [] }
      | _ => s1
    saveEffect s2 now

/-- The init effect (`useEffect` on mount): read or generate the sync key
(`genKey` stands for the `generateSyncKey()` result), persist it, then
`loadPhrases`: GET the remote collection; adopt it when non-empty; when it
is empty (or has no `phrases` field) fall back to the Local Cache and, if
that is non-empty, POST it upstream immediately; on a fetch error fall back
to the Local Cache without posting.  The save effect runs afterwards. -/
def initLoad (s : ClientState) (genKey : String) (resp : FetchResult) (now : Int) :
    ClientState :=
  let key := s.localKey.getD genKey
  let s0 : ClientState := { s with localKey := some key, syncKey := key, gets := s.gets ++ [key] }
  match resp with
  | .ok body =>
    let r := body.getD []
    if r.length > 0 then saveEffect { s0 with phrases := r } now
    else
      match s0.localPhrases with
      | some l =>
        let s1 : ClientState := { s0 with phrases := l }
        let s2 : ClientState :=
          if l.length > 0 then { s1 with posts := s1.posts ++ [(key, l)] } else s1
        saveEffect s2 now
      | none => saveEffect s0 now
  | .httpError => saveEffect s0 now
  | .netError =>
    match s0.localPhrases with
    | some l => saveEffect { s0 with phrases := l } now
    | none => saveEffect s0 now

/-- A local mutation of the collection: an add (the success path of
`handleSubmit`) or a delete (`handleDeletePhrase`, confirmed). -/
inductive Mutation where
  | add (p : Phrase)
  | del (phraseId : String)

/-- Application of one mutation. -/
def applyMutation (s : ClientState) (m : Mutation) (now : Int) : ClientState :=
  match m with
  | .add p => applyAdd s p now
  | .del i => handleDeletePhrase s i true now

/-- Case-insensitive uniqueness of `english` values within a collection. -/
def ciUnique (l : List Phrase) : Prop :=
  l.Pairwise (fun p q => ¬ jsToLower p.english = jsToLower q.english)

/-- Sample phrase used in concrete traces. -/
def pA : Phrase := ⟨"idA", "hello", "xin chao", "sin chow", "greetings", 0, 0, none⟩

/-- Second sample phrase used in concrete traces. -/
def pB : Phrase := ⟨"idB", "thank you", "cam on", "kahm uhn", "social", 1, 0, none⟩

theorem saveEffect_phrases (s : ClientState) (now : Int) :
    (saveEffect s now).phrases = s.phrases := by
  unfold saveEffect
  split <;> rfl

theorem saveEffect_syncKey (s : ClientState) (now : Int) :
    (saveEffect s now).syncKey = s.syncKey := by
  unfold saveEffect
  split <;> rfl

theorem saveEffect_posts (s : ClientState) (now : Int) :
    (saveEffect s now).posts = s.posts := by
  unfold saveEffect
  split <;> rfl

theorem saveEffect_gets (s : ClientState) (now : Int) :
    (saveEffect s now).gets = s.gets := by
  unfold saveEffect
  split <;> rfl

theorem saveEffect_localKey (s : ClientState) (now : Int) :
    (saveEffect s now).localKey = s.localKey := by
  unfold saveEffect
  split <;> rfl

theorem saveEffect_currentPhrase (s : ClientState) (now : Int) :
    (saveEffect s now).currentPhrase = s.currentPhrase := by
  unfold saveEffect
  split <;> rfl

theorem saveEffect_of_pos (s : ClientState) (now : Int)
    (h1 : ¬ s.phrases = []) (h2 : ¬ s.syncKey = "") :
    saveEffect s now
      = { s with localPhrases := some s.phrases,
                 pending := some ⟨s.syncKey, s.phrases, now + 1000⟩ } := by
  unfold saveEffect
  rw [if_pos ⟨List.length_pos.mpr h1, h2⟩]

theorem saveEffect_of_empty (s : ClientState) (now : Int) (h : s.phrases = []) :
    saveEffect s now = s := by
  unfold saveEffect
  rw [if_neg]
  simp [h]

/-- C3 (code bug): the Clear All handler empties the in-memory collection,
writes the empty list to Local Cache, and POSTs the empty list immediately;
but a debounce timer pending from a mutation made within the previous
second is NOT cancelled — the save effect skips its `clearTimeout` when the
collection is empty — so the timer then fires and POSTs the pre-clear
collection, making the last write to the remote the pre-clear state. -/
theorem clear_all_stale_timer :
    (handleClearAll (applyAdd ⟨[pA], none, "key123", some [pA], some "key123", none, [], []⟩
        pB 100) true 200).phrases = [] ∧
    (handleClearAll (applyAdd ⟨[pA], none, "key123", some [pA], some "key123", none, [], []⟩
        pB 100) true 200).localPhrases = some [] ∧
    (handleClearAll (applyAdd ⟨[pA], none, "key123", some [pA], some "key123", none, [], []⟩
        pB 100) true 200).posts = [("key123", [])] ∧
    (handleClearAll (applyAdd ⟨[pA], none, "key123", some [pA], some "key123", none, [], []⟩
        pB 100) true 200).pending = some ⟨"key123", [pB, pA], 1100⟩ ∧
    (fireTimer (handleClearAll (applyAdd ⟨[pA], none, "key123", some [pA], some "key123",
        none, [], []⟩ pB 100) true 200) 1100).posts
      = [("key123", []), ("key123", [pB, pA])] :=
  ⟨rfl, rfl, rfl, rfl, rfl⟩

/-- C4 (amended): on init with stored key `K`, when the remote returns an
empty collection and Local Cache holds the non-empty `L`, the in-memory
collection becomes `L` and one POST `(K, L)` is issued immediately — but the
save effect also schedules a debounced push of the same collection, so once
that timer fires a second identical POST `(K, L)` has been issued: two in
total, not exactly one. -/
theorem init_local_push_twice (K genK : String) (L : List Phrase)
    (cp : Option Phrase) (g : List String) (t : Int)
    (hK : ¬ K = "") (hL : ¬ L = []) :
    (initLoad ⟨[], cp, "", some L, some K, none, [], g⟩ genK (.ok (some [])) t).phrases = L ∧
    (initLoad ⟨[], cp, "", some L, some K, none, [], g⟩ genK (.ok (some [])) t).posts
      = [(K, L)] ∧
    (initLoad ⟨[], cp, "", some L, some K, none, [], g⟩ genK (.ok (some [])) t).pending
      = some ⟨K, L, t + 1000⟩ ∧
    (fireTimer (initLoad ⟨[], cp, "", some L, some K, none, [], g⟩ genK (.ok (some [])) t)
        (t + 1000)).posts = [(K, L), (K, L)] := by
  have hL' : L.length > 0 := List.length_pos.mpr hL
  have h : initLoad ⟨[], cp, "", some L, some K, none, [], g⟩ genK (.ok (some [])) t
      = ⟨L, cp, K, some L, some K, some ⟨K, L, t + 1000⟩, [(K, L)], g ++ [K]⟩ := by
    unfold initLoad
    dsimp only [Option.getD]
    rw [if_neg (by simp)]
    rw [if_pos hL']
    rw [saveEffect_of_pos _ _ hL hK]
    simp
  rw [h]
  refine ⟨rfl, rfl, rfl, ?_⟩
  unfold fireTimer
  simp

/-- Witness for `init_local_push_twice` at a concrete state. -/
theorem init_local_push_twice_witness :
    (initLoad ⟨[], none, "", some [pA], some "key123", none, [], []⟩ "gen12345"
        (.ok (some [])) 0).phrases = [pA] ∧
    (initLoad ⟨[], none, "", some [pA], some "key123", none, [], []⟩ "gen12345"
        (.ok (some [])) 0).posts = [("key123", [pA])] ∧
    (initLoad ⟨[], none, "", some [pA], some "key123", none, [], []⟩ "gen12345"
        (.ok (some [])) 0).pending = some ⟨"key123", [pA], 0 + 1000⟩ ∧
    (fireTimer (initLoad ⟨[], none, "", some [pA], some "key123", none, [], []⟩ "gen12345"
        (.ok (some [])) 0) (0 + 1000)).posts = [("key123", [pA]), ("key123", [pA])] :=
  init_local_push_twice "key123" "gen12345" [pA] none [] 0 (by decide) (by decide)

/-- C4 counterexample: in the init scenario of the claim (remote empty,
Local Cache `[pA]`, stored key `"key123"`), once the system quiesces TWO
posts with body `("key123", [pA])` have been issued, not exactly one. -/
theorem init_single_push_counterexample :
    (fireTimer (initLoad ⟨[], none, "", some [pA], some "key123", none, [], []⟩ "gen12345"
        (.ok (some [])) 0) 1000).posts = [("key123", [pA]), ("key123", [pA])] ∧
    ¬ (fireTimer (initLoad ⟨[], none, "", some [pA], some "key123", none, [], []⟩ "gen12345"
        (.ok (some [])) 0) 1000).posts.length = 1 :=
  ⟨rfl, by decide⟩

theorem handleDeletePhrase_eq (s : ClientState) (phraseId : String) (now : Int) :
    handleDeletePhrase s phraseId true now
      = saveEffect { s with
          phrases := s.phrases.filter (fun p => p.id != phraseId),
          currentPhrase := match s.currentPhrase with
            | some cp => if cp.id = phraseId then none else some cp
            | none => none } now := by
  unfold handleDeletePhrase
  rw [if_pos rfl]

/-- C5 (amended): a confirmed delete whose resulting collection is non-empty
is persisted to Local Cache by the save effect (when a sync key is set), and
Clear All writes the empty list to Local Cache directly; but a delete that
empties the collection does not write to Local Cache at all — the empty
collection is never persisted by the save effect, whose guard requires a
non-empty collection. -/
theorem mutation_cache_write (s : ClientState) (phraseId : String) (now : Int) :
    (¬ (handleDeletePhrase s phraseId true now).phrases = [] → ¬ s.syncKey = "" →
      (handleDeletePhrase s phraseId true now).localPhrases
        = some (s.phrases.filter (fun p => p.id != phraseId))) ∧
    (¬ s.phrases = [] →
      (handleClearAll s true now).localPhrases = some []) ∧
    ((handleDeletePhrase s phraseId true now).phrases = [] →
      (handleDeletePhrase s phraseId true now).localPhrases = s.localPhrases) := by
  refine ⟨?_, ?_, ?_⟩
  · intro hne hk
    rw [handleDeletePhrase_eq] at hne ⊢
    rw [saveEffect_phrases] at hne
    rw [saveEffect_of_pos _ _ hne hk]
  · intro hne
    unfold handleClearAll
    rw [if_neg (by have := List.length_pos.mpr hne; omega), if_pos rfl]
    dsimp only
    by_cases hk : ¬ s.syncKey = ""
    · rw [if_pos hk, saveEffect_of_empty _ _ rfl]
    · rw [if_neg hk, saveEffect_of_empty _ _ rfl]
  · intro hemp
    rw [handleDeletePhrase_eq] at hemp ⊢
    rw [saveEffect_phrases] at hemp
    rw [saveEffect_of_empty _ _ hemp]

/-- Witness for `mutation_cache_write` at concrete states, with every inner
hypothesis discharged: deleting `pB` from `[pA, pB]` persists the filtered
collection, Clear All persists the empty list, and deleting the last phrase
of `[pA]` leaves the cache untouched. -/
theorem mutation_cache_write_witness :
    (handleDeletePhrase ⟨[pA, pB], none, "key123", some [pA, pB], some "key123",
        none, [], []⟩ "idB" true 0).localPhrases
      = some ([pA, pB].filter (fun p => p.id != "idB")) ∧
    (handleClearAll ⟨[pA, pB], none, "key123", some [pA, pB], some "key123",
        none, [], []⟩ true 0).localPhrases = some [] ∧
    (handleDeletePhrase ⟨[pA], none, "key123", some [pA], some "key123",
        none, [], []⟩ "idA" true 0).localPhrases = some [pA] := by
  have h1 := mutation_cache_write
    ⟨[pA, pB], none, "key123", some [pA, pB], some "key123", none, [], []⟩ "idB" 0
  have h2 := mutation_cache_write
    ⟨[pA], none, "key123", some [pA], some "key123", none, [], []⟩ "idA" 0
  exact ⟨h1.1 (by decide) (by decide), h1.2.1 (by decide), h2.2.2 (by decide)⟩

/-- C5 counterexample: with the collection `[pA]` cached and in memory,
deleting the last phrase empties the in-memory collection but leaves Local
Cache holding the deleted phrase — the empty collection is not written. -/
theorem delete_last_cache_counterexample :
    (handleDeletePhrase ⟨[pA], none, "key123", some [pA], some "key123", none, [], []⟩
        "idA" true 0).phrases = [] ∧
    (handleDeletePhrase ⟨[pA], none, "key123", some [pA], some "key123", none, [], []⟩
        "idA" true 0).localPhrases = some [pA] ∧
    ¬ (handleDeletePhrase ⟨[pA], none, "key123", some [pA], some "key123", none, [], []⟩
        "idA" true 0).localPhrases = some [] :=
  ⟨rfl, rfl, by decide⟩


theorem applyMutation_frame (s : ClientState) (m : Mutation) (now : Int)
    (hne : ¬ (applyMutation s m now).phrases = []) (hk : ¬ s.syncKey = "") :
    (applyMutation s m now).syncKey = s.syncKey ∧
    (applyMutation s m now).posts = s.posts ∧
    (applyMutation s m now).pending
      = some ⟨s.syncKey, (applyMutation s m now).phrases, now + 1000⟩ := by
  cases m with
  | add p =>
    have he : applyMutation s (.add p) now = applyAdd s p now := rfl
    rw [he] at hne ⊢
    unfold applyAdd at hne ⊢
    rw [saveEffect_phrases] at hne
    rw [saveEffect_of_pos _ _ hne hk]
    exact ⟨rfl, rfl, rfl⟩
  | del i =>
    have he : applyMutation s (.del i) now = handleDeletePhrase s i true now := rfl
    rw [he] at hne ⊢
    rw [handleDeletePhrase_eq] at hne ⊢
    rw [saveEffect_phrases] at hne
    rw [saveEffect_of_pos _ _ hne hk]
    exact ⟨rfl, rfl, rfl⟩

/-- C6 (amended): five add/delete mutations each performed within the
1000 ms debounce window of the previous one and each leaving the collection
non-empty (with a sync key set) issue no POST themselves; each replaces the
previously pending timer, so exactly one timer is pending, and when it fires
exactly one POST is issued, whose body is the collection state after all
five mutations.  (When a mutation empties the collection the save effect
skips both the cancellation and the rescheduling, and the guarantee fails —
see the counterexample.) -/
theorem debounce_collapse (s0 : ClientState) (m1 m2 m3 m4 m5 : Mutation)
    (t1 t2 t3 t4 t5 : Int)
    (hk : ¬ s0.syncKey = "")
    (_hw2 : t2 < t1 + 1000) (_hw3 : t3 < t2 + 1000) (_hw4 : t4 < t3 + 1000) (_hw5 : t5 < t4 + 1000)
    (h1 : ¬ (applyMutation s0 m1 t1).phrases = [])
    (h2 : ¬ (applyMutation (applyMutation s0 m1 t1) m2 t2).phrases = [])
    (h3 : ¬ (applyMutation (applyMutation (applyMutation s0 m1 t1) m2 t2) m3 t3).phrases = [])
    (h4 : ¬ (applyMutation (applyMutation (applyMutation (applyMutation s0 m1 t1) m2 t2)
        m3 t3) m4 t4).phrases = [])
    (h5 : ¬ (applyMutation (applyMutation (applyMutation (applyMutation (applyMutation s0
        m1 t1) m2 t2) m3 t3) m4 t4) m5 t5).phrases = []) :
    (applyMutation (applyMutation (applyMutation (applyMutation (applyMutation s0
        m1 t1) m2 t2) m3 t3) m4 t4) m5 t5).posts = s0.posts ∧
    (applyMutation (applyMutation (applyMutation (applyMutation (applyMutation s0
        m1 t1) m2 t2) m3 t3) m4 t4) m5 t5).pending
      = some ⟨s0.syncKey,
          (applyMutation (applyMutation (applyMutation (applyMutation (applyMutation s0
            m1 t1) m2 t2) m3 t3) m4 t4) m5 t5).phrases, t5 + 1000⟩ ∧
    (fireTimer (applyMutation (applyMutation (applyMutation (applyMutation (applyMutation s0
        m1 t1) m2 t2) m3 t3) m4 t4) m5 t5) (t5 + 1000)).posts
      = s0.posts ++ [(s0.syncKey,
          (applyMutation (applyMutation (applyMutation (applyMutation (applyMutation s0
            m1 t1) m2 t2) m3 t3) m4 t4) m5 t5).phrases)] := by
  have f1 := applyMutation_frame s0 m1 t1 h1 hk
  have hk1 : ¬ (applyMutation s0 m1 t1).syncKey = "" := by
    rw [f1.1]
    exact hk
  have f2 := applyMutation_frame (applyMutation s0 m1 t1) m2 t2 h2 hk1
  have hk2 : ¬ (applyMutation (applyMutation s0 m1 t1) m2 t2).syncKey = "" := by
    rw [f2.1, f1.1]
    exact hk
  have f3 := applyMutation_frame (applyMutation (applyMutation s0 m1 t1) m2 t2) m3 t3 h3 hk2
  have hk3 : ¬ (applyMutation (applyMutation (applyMutation s0 m1 t1) m2 t2) m3 t3).syncKey
      = "" := by
    rw [f3.1, f2.1, f1.1]
    exact hk
  have f4 := applyMutation_frame (applyMutation (applyMutation (applyMutation s0 m1 t1)
    m2 t2) m3 t3) m4 t4 h4 hk3
  have hk4 : ¬ (applyMutation (applyMutation (applyMutation (applyMutation s0 m1 t1) m2 t2)
      m3 t3) m4 t4).syncKey = "" := by
    rw [f4.1, f3.1, f2.1, f1.1]
    exact hk
  have f5 := applyMutation_frame (applyMutation (applyMutation (applyMutation (applyMutation
    s0 m1 t1) m2 t2) m3 t3) m4 t4) m5 t5 h5 hk4
  have hposts : (applyMutation (applyMutation (applyMutation (applyMutation (applyMutation s0
      m1 t1) m2 t2) m3 t3) m4 t4) m5 t5).posts = s0.posts := by
    rw [f5.2.1, f4.2.1, f3.2.1, f2.2.1, f1.2.1]
  have hpend : (applyMutation (applyMutation (applyMutation (applyMutation (applyMutation s0
      m1 t1) m2 t2) m3 t3) m4 t4) m5 t5).pending
      = some ⟨s0.syncKey,
          (applyMutation (applyMutation (applyMutation (applyMutation (applyMutation s0
            m1 t1) m2 t2) m3 t3) m4 t4) m5 t5).phrases, t5 + 1000⟩ := by
    rw [f5.2.2, f4.1, f3.1, f2.1, f1.1]
  refine ⟨hposts, hpend, ?_⟩
  unfold fireTimer
  rw [hpend]
  dsimp only
  rw [if_pos (by omega)]
  rw [hposts]

/-- Witness for `debounce_collapse`: five mutations at 0, 100, 200, 300 and
400 ms over the starting collection `[pA]`, each leaving it non-empty. -/
theorem debounce_collapse_witness :
    (applyMutation (applyMutation (applyMutation (applyMutation (applyMutation
        ⟨[pA], none, "key123", some [pA], some "key123", none, [], []⟩
        (.add pB) 0) (.del "idB") 100) (.add pB) 200) (.del "idB") 300) (.add pB) 400).posts
      = [] ∧
    (applyMutation (applyMutation (applyMutation (applyMutation (applyMutation
        ⟨[pA], none, "key123", some [pA], some "key123", none, [], []⟩
        (.add pB) 0) (.del "idB") 100) (.add pB) 200) (.del "idB") 300) (.add pB) 400).pending
      = some ⟨"key123",
          (applyMutation (applyMutation (applyMutation (applyMutation (applyMutation
            ⟨[pA], none, "key123", some [pA], some "key123", none, [], []⟩
            (.add pB) 0) (.del "idB") 100) (.add pB) 200) (.del "idB") 300) (.add pB)
              400).phrases, 400 + 1000⟩ ∧
    (fireTimer (applyMutation (applyMutation (applyMutation (applyMutation (applyMutation
        ⟨[pA], none, "key123", some [pA], some "key123", none, [], []⟩
        (.add pB) 0) (.del "idB") 100) (.add pB) 200) (.del "idB") 300) (.add pB) 400)
        (400 + 1000)).posts
      = [] ++ [("key123",
          (applyMutation (applyMutation (applyMutation (applyMutation (applyMutation
            ⟨[pA], none, "key123", some [pA], some "key123", none, [], []⟩
            (.add pB) 0) (.del "idB") 100) (.add pB) 200) (.del "idB") 300) (.add pB)
              400).phrases)] :=
  debounce_collapse ⟨[pA], none, "key123", some [pA], some "key123", none, [], []⟩
    (.add pB) (.del "idB") (.add pB) (.del "idB") (.add pB) 0 100 200 300 400
    (by decide) (by decide) (by decide) (by decide) (by decide)
    (by decide) (by decide) (by decide) (by decide) (by decide)

/-- C6 counterexample: five mutations within one second whose fifth deletes
the last phrase.  The timer pending from the fourth mutation is not
cancelled; it fires and issues the only POST, whose body is the collection
after four mutations (`[pA]`), not the final (empty) state. -/
theorem debounce_final_state_counterexample :
    (applyMutation (applyMutation (applyMutation (applyMutation (applyMutation
        ⟨[pA], none, "key123", some [pA], some "key123", none, [], []⟩
        (.add pB) 0) (.del "idB") 100) (.add pB) 200) (.del "idB") 300) (.del "idA")
          400).phrases = [] ∧
    (fireTimer (applyMutation (applyMutation (applyMutation (applyMutation (applyMutation
        ⟨[pA], none, "key123", some [pA], some "key123", none, [], []⟩
        (.add pB) 0) (.del "idB") 100) (.add pB) 200) (.del "idB") 300) (.del "idA") 400)
        1300).posts = [("key123", [pA])] ∧
    ¬ (fireTimer (applyMutation (applyMutation (applyMutation (applyMutation (applyMutation
        ⟨[pA], none, "key123", some [pA], some "key123", none, [], []⟩
        (.add pB) 0) (.del "idB") 100) (.add pB) 200) (.del "idB") 300) (.del "idA") 400)
        1300).posts = [("key123", [])] :=
  ⟨rfl, rfl, by decide⟩

/-- C8: key rotation with a non-blank (already-trimmed) new key persists the
key to Local Cache, replaces the in-memory sync key, issues the GET for the
new key, and replaces the in-memory collection with exactly what that GET
returned — the empty collection when the remote has none — independently of
the previous collection: a destructive switch, no merge. -/
theorem key_rotation_replaces (s : ClientState) (newKey : String)
    (body : Option (List Phrase)) (now : Int)
    (htrim : jsTrim newKey = newKey) (hne : ¬ newKey = "") :
    (handleSetSyncKey s newKey (.ok body) now).localKey = some newKey ∧
    (handleSetSyncKey s newKey (.ok body) now).syncKey = newKey ∧
    (handleSetSyncKey s newKey (.ok body) now).gets = s.gets ++ [newKey] ∧
    (handleSetSyncKey s newKey (.ok body) now).phrases = body.getD [] := by
  unfold handleSetSyncKey
  rw [htrim, if_neg hne]
  dsimp only
  exact ⟨by rw [saveEffect_localKey], by rw [saveEffect_syncKey],
    by rw [saveEffect_gets], by rw [saveEffect_phrases]⟩

/-- Witness for `key_rotation_replaces`: rotating from `"old123"` (with an
unsynced collection `[pA]`) to `"new456"` whose remote collection is empty
discards the local collection. -/
theorem key_rotation_replaces_witness :
    (handleSetSyncKey ⟨[pA], some pA, "old123", some [pA], some "old123", none, [], []⟩
        "new456" (.ok (some [])) 7).localKey = some "new456" ∧
    (handleSetSyncKey ⟨[pA], some pA, "old123", some [pA], some "old123", none, [], []⟩
        "new456" (.ok (some [])) 7).syncKey = "new456" ∧
    (handleSetSyncKey ⟨[pA], some pA, "old123", some [pA], some "old123", none, [], []⟩
        "new456" (.ok (some [])) 7).gets = [] ++ ["new456"] ∧
    (handleSetSyncKey ⟨[pA], some pA, "old123", some [pA], some "old123", none, [], []⟩
        "new456" (.ok (some [])) 7).phrases = (some ([] : List Phrase)).getD [] :=
  key_rotation_replaces ⟨[pA], some pA, "old123", some [pA], some "old123", none, [], []⟩
    "new456" (some []) 7 (by decide) (by decide)

/-- C9: provided the submission is non-blank and not blocked by a pending
translation, if the collection already holds a phrase whose `english` equals
the trimmed input case-insensitively then submission leaves the collection
unchanged and surfaces that entry as the current phrase; and submission
always preserves case-insensitive uniqueness of `english` values. -/
theorem submit_dedup (s : ClientState) (input : String) (tr : Option TranslationResponse)
    (newId : String) (now : Int)
    (hin : ¬ jsTrim input = "")
    (hU : ciUnique s.phrases) :
    ciUnique (handleSubmit s input false tr newId now).phrases ∧
    (∀ e, s.phrases.find? (fun p => jsToLower p.english == jsToLower (jsTrim input)) = some e →
      (handleSubmit s input false tr newId now).phrases = s.phrases ∧
      (handleSubmit s input false tr newId now).currentPhrase = some e) := by
  unfold handleSubmit
  rw [if_neg (by simp [hin])]
  cases hf : s.phrases.find? (fun p => jsToLower p.english == jsToLower (jsTrim input)) with
  | some e0 =>
    refine ⟨hU, ?_⟩
    intro e he
    cases he
    exact ⟨rfl, rfl⟩
  | none =>
    refine ⟨?_, ?_⟩
    · cases tr with
      | none => exact hU
      | some tsl =>
        unfold applyAdd
        show ciUnique (saveEffect _ now).phrases
        rw [saveEffect_phrases]
        show ciUnique (mkPhrase newId (jsTrim input) tsl now :: s.phrases)
        rw [ciUnique, List.pairwise_cons]
        refine ⟨?_, hU⟩
        intro q hq
        have hq2 := List.find?_eq_none.mp hf q hq
        simp only [beq_iff_eq] at hq2
        show ¬ jsToLower (mkPhrase newId (jsTrim input) tsl now).english = jsToLower q.english
        intro hcontra
        exact hq2 hcontra.symm
    · intro e he
      exact Option.noConfusion he

/-- Witness for `submit_dedup`: submitting `"Hello "` over a collection
already holding `pA` (english `"hello"`) changes nothing and surfaces
`pA`. -/
theorem submit_dedup_witness :
    ciUnique (handleSubmit ⟨[pA], none, "key123", some [pA], some "key123", none, [], []⟩
        "Hello " false none "newId" 5).phrases ∧
    (handleSubmit ⟨[pA], none, "key123", some [pA], some "key123", none, [], []⟩
        "Hello " false none "newId" 5).phrases = [pA] ∧
    (handleSubmit ⟨[pA], none, "key123", some [pA], some "key123", none, [], []⟩
        "Hello " false none "newId" 5).currentPhrase = some pA := by
  have h := submit_dedup ⟨[pA], none, "key123", some [pA], some "key123", none, [], []⟩
    "Hello " none "newId" 5 (by decide) (by simp [ciUnique])
  exact ⟨h.1, (h.2 pA (by decide)).1, (h.2 pA (by decide)).2⟩
